import Mathlib

/-!
Verification of the streaming-JSON balancer (src/index.ts).

The source is embedded shallowly: strings are `List Char`, the per-character
scanner loops become `List.foldl` over explicit state structures mirroring the
local variables of the TypeScript functions, and the stateful
`StreamingJsonParser` class becomes explicit state passing.  `JSON.parse` is
supplied by the host environment (the spec treats the decoder as an external
collaborator), so it is modelled as an abstract argument
`parse : List Char → Option JsonValue`; the `try/catch` around it becomes a
`match` on the `Option`.
-/

namespace LlmJson

/-- The double-quote character (code 34), named to keep literals readable. -/
def dquote : Char := Char.ofNat 34

/-- The single-quote character (code 39). -/
def squote : Char := Char.ofNat 39

/-- The backslash character (code 92). -/
def bslash : Char := Char.ofNat 92

/-- Characters removed by JavaScript `String.prototype.trim`; the source uses
`char.trim() !== ''` to detect non-whitespace.  The set is ECMAScript
WhiteSpace (tab, VT, FF, space, NBSP, ZWNBSP and the Unicode Zs category)
together with the line terminators LF, CR, LS, PS. -/
def jsWhitespaceChars : List Char :=
  [Char.ofNat 32, Char.ofNat 9, Char.ofNat 10, Char.ofNat 13, Char.ofNat 11,
   Char.ofNat 12, Char.ofNat 160, Char.ofNat 0x1680, Char.ofNat 0x2000,
   Char.ofNat 0x2001, Char.ofNat 0x2002, Char.ofNat 0x2003, Char.ofNat 0x2004,
   Char.ofNat 0x2005, Char.ofNat 0x2006, Char.ofNat 0x2007, Char.ofNat 0x2008,
   Char.ofNat 0x2009, Char.ofNat 0x200A, Char.ofNat 0x2028, Char.ofNat 0x2029,
   Char.ofNat 0x202F, Char.ofNat 0x205F, Char.ofNat 0x3000, Char.ofNat 0xFEFF]

/-- `char.trim() !== ''` is false exactly on whitespace characters. -/
def isJsWhitespace (c : Char) : Prop := c ∈ jsWhitespaceChars

instance (c : Char) : Decidable (isJsWhitespace c) := by
  unfold isJsWhitespace; infer_instance

/-- `quoteType` configuration field: 'double' | 'single' | 'both'. -/
inductive QuoteType where
  | double
  | single
  | both
deriving DecidableEq, Repr

/-- `JsonParserConfig`, with every field present (the source merges partial
configurations over `DEFAULT_CONFIG`, so a constructed parser always holds a
full record).  `dummyNull` models `dummyValues.null` as the literal text that
would be substituted for a missing value; the TypeScript type restricts it to
`null` and the field is never read by the balancing code. -/
structure JsonParserConfig where
  balanceQuotes : Bool
  quoteType : QuoteType
  returnParsedJson : Bool
  dummyNull : List Char
deriving DecidableEq, Repr

/-- `DEFAULT_CONFIG` from the source. -/
def DEFAULT_CONFIG : JsonParserConfig :=
  { balanceQuotes := true
    quoteType := QuoteType.both
    returnParsedJson := false
    dummyNull := "null".data }

/-- One record of the `dummyValues` tracking array:
`{ position: number; value: string; type: string }`. -/
structure DummyValue where
  position : Nat
  value : List Char
  type : String
deriving DecidableEq, Repr

/-- A decoded JSON value, the result type of the host `JSON.parse`. -/
inductive JsonValue where
  | null
  | bool (b : Bool)
  | num (n : Int)
  | str (s : List Char)
  | arr (xs : List JsonValue)
  | obj (fields : List (List Char × JsonValue))

/-- The local variables of the `balanceQuotes` scan. -/
structure QuoteScanState where
  inString : Bool := false
  stringChar : Option Char := none
  escaped : Bool := false
deriving DecidableEq, Repr

/-- `shouldProcessQuote` from the quote pass. -/
def shouldProcessQuote (cfg : JsonParserConfig) (c : Char) : Prop :=
  cfg.quoteType = QuoteType.both ∨
    (cfg.quoteType = QuoteType.double ∧ c = dquote) ∨
    (cfg.quoteType = QuoteType.single ∧ c = squote)

instance (cfg : JsonParserConfig) (c : Char) : Decidable (shouldProcessQuote cfg c) := by
  unfold shouldProcessQuote; infer_instance

/-- One iteration of the `balanceQuotes` loop body. -/
def quoteStep (cfg : JsonParserConfig) (st : QuoteScanState) (c : Char) : QuoteScanState :=
  if st.escaped then { st with escaped := false }
  else if c = bslash then { st with escaped := true }
  else if shouldProcessQuote cfg c ∧ (c = dquote ∨ c = squote) then
    if st.inString = false then { st with inString := true, stringChar := some c }
    else if st.stringChar = some c then { st with inString := false, stringChar := none }
    else st
  else st

/-- The full `balanceQuotes` scan over the input. -/
def quoteScan (cfg : JsonParserConfig) (input : List Char) : QuoteScanState :=
  input.foldl (quoteStep cfg) {}

/-- The local variables of the `balanceBrackets` scan.  The stack is kept with
its head as the JavaScript array's last element (the top); the unused
`lastNonWhitespaceIndex` local (written but never read in the source) is
omitted. -/
structure BracketScanState where
  stack : List Char := []
  inString : Bool := false
  stringChar : Option Char := none
  escaped : Bool := false
  lastNonWhitespaceChar : Option Char := none
deriving DecidableEq, Repr

/-- The string toggling of the bracket pass (lines 228-234 of the source):
every quote character opens a string, the recorded one closes it; the
configuration is not consulted here. -/
def quoteToggle (st : BracketScanState) (c : Char) : BracketScanState :=
  if (c = dquote ∨ c = squote) ∧ st.inString = false then
    { st with inString := true, stringChar := some c }
  else if st.stringChar = some c ∧ st.inString = true then
    { st with inString := false, stringChar := none }
  else st

/-- The stack updates of the bracket pass: push the matching closer on an
opener; pop on a closer only when the top matches (`stack[stack.length-1]`
is the head of the modelled stack). -/
def bracketTrack (st : BracketScanState) (c : Char) : BracketScanState :=
  if c = '{' ∨ c = '[' then
    { st with stack := (if c = '{' then '}' else ']') :: st.stack }
  else if c = '}' ∨ c = ']' then
    if st.stack.head? = some c then { st with stack := st.stack.tail }
    else st
  else st

/-- The `char.trim() !== ''` bookkeeping of the bracket pass. -/
def lastSigTrack (st : BracketScanState) (c : Char) : BracketScanState :=
  if isJsWhitespace c then st
  else { st with lastNonWhitespaceChar := some c }

/-- One iteration of the `balanceBrackets` loop body.  Note that, unlike the
quote pass, the string tracking here does not consult the configuration. -/
def bracketStep (st : BracketScanState) (c : Char) : BracketScanState :=
  if st.escaped then { st with escaped := false }
  else if c = bslash then { st with escaped := true }
  else
    let st1 := quoteToggle st c
    if st1.inString = false then lastSigTrack (bracketTrack st1 c) c
    else st1

/-- The full `balanceBrackets` scan over the input. -/
def bracketScan (input : List Char) : BracketScanState :=
  input.foldl bracketStep {}

/-- The `balanceQuotes` pass: scan, then close a still-open string by
appending the recorded `stringChar` and recording a `quote` insertion. -/
def balanceQuotes (cfg : JsonParserConfig) (input : List Char) :
    List Char × List DummyValue :=
  let st := quoteScan cfg input
  match st.stringChar with
  | some q =>
      if st.inString then
        (input ++ [q], [{ position := input.length, value := [q], type := "quote" }])
      else (input, [])
  | none => (input, [])

/-- The literal appended for a missing object value (hardcoded in the source
as `result += 'null'`). -/
def nullChars : List Char := "null".data

/-- The `while (stack.length > 0)` closing loop: pop each pending closer,
append it, and record a `bracket` insertion at its resulting position. -/
def closeBrackets : List Char → List Char → List DummyValue →
    List Char × List DummyValue
  | [], result, dv => (result, dv)
  | c :: rest, result, dv =>
      closeBrackets rest (result ++ [c])
        (dv ++ [{ position := result.length, value := [c], type := "bracket" }])

/-- The `balanceBrackets` pass: scan, possibly inject the `null` placeholder
after a dangling colon, then close all pending brackets. -/
def balanceBrackets (input : List Char) : List Char × List DummyValue :=
  let st := bracketScan input
  let needsValue := st.lastNonWhitespaceChar = some ':' ∨
    st.lastNonWhitespaceChar = some '[' ∨ st.lastNonWhitespaceChar = some ','
  let start :=
    if needsValue ∧ st.stack ≠ [] then
      if st.lastNonWhitespaceChar = some ':' then
        (input ++ nullChars,
         [{ position := input.length, value := nullChars, type := "value" }])
      else (input, [])
    else (input, [])
  closeBrackets st.stack start.1 start.2

/-- `validateAndBalance`: empty input is returned untouched; otherwise the
quote pass (when enabled) runs first and the bracket pass runs over its
output, with the insertion records concatenated. -/
def validateAndBalance (cfg : JsonParserConfig) (input : List Char) :
    List Char × List DummyValue :=
  if input.isEmpty then ([], [])
  else
    let quoteResult :=
      if cfg.balanceQuotes then balanceQuotes cfg input else (input, [])
    let bracketResult := balanceBrackets quoteResult.1
    (bracketResult.1, quoteResult.2 ++ bracketResult.2)

/-- The mutable fields of the `StreamingJsonParser` class. -/
structure StreamingJsonParser where
  config : JsonParserConfig
  lastParsedData : Option JsonValue
  lastBalancedString : List Char
  addedDummyValues : List DummyValue

/-- A freshly constructed parser (the constructor merges the caller's partial
configuration over `DEFAULT_CONFIG`; the merged record is taken as input). -/
def mkParser (cfg : JsonParserConfig) : StreamingJsonParser :=
  { config := cfg
    lastParsedData := none
    lastBalancedString := []
    addedDummyValues := [] }

/-- `[...].sort((a, b) => b.position - a.position)`: a stable sort by
descending position, modelled by insertion sort. -/
def sortDummiesDesc (l : List DummyValue) : List DummyValue :=
  List.insertionSort (fun a b => b.position ≤ a.position) l

/-- The retraction loop of `appendChunk`: for each dummy (already sorted by
descending position) drop it from the end of the text when the text ends with
that exact literal.  `slice(0, -n)` keeps the first `length - n` characters;
for `n = 0` JavaScript yields the empty string, which is also modelled
(unreachable for the records the balancer produces, whose values are
non-empty). -/
def retractDummies : List Char → List DummyValue → List Char
  | base, [] => base
  | base, d :: rest =>
      retractDummies
        (if d.value.isSuffixOf base then
          (if d.value.length = 0 then [] else base.take (base.length - d.value.length))
        else base) rest

/-- The state-updating part of `appendChunk`, before the optional decode:
first chunk balances directly; later chunks retract the recorded dummies
tail-first, append the chunk, and re-balance. -/
def appendBalance (p : StreamingJsonParser) (chunk : List Char) :
    StreamingJsonParser :=
  if p.lastBalancedString.isEmpty then
    let r := validateAndBalance p.config chunk
    { p with lastBalancedString := r.1, addedDummyValues := r.2 }
  else
    let sortedDummies := sortDummiesDesc p.addedDummyValues
    let baseData := retractDummies p.lastBalancedString sortedDummies
    let newInput := baseData ++ chunk
    let r := validateAndBalance p.config newInput
    { p with lastBalancedString := r.1, addedDummyValues := r.2 }

/-- The `any | string` value `appendChunk` returns: a decoded value or the
balanced text. -/
inductive ChunkResult where
  | parsed (v : JsonValue)
  | text (s : List Char)

/-- `appendChunk`: update the state, then (when `returnParsedJson`) try the
host decoder; a decode failure is caught, logged as a warning, and the
balanced string is returned instead. -/
def appendChunk (parse : List Char → Option JsonValue)
    (p : StreamingJsonParser) (chunk : List Char) :
    StreamingJsonParser × ChunkResult :=
  let p1 := appendBalance p chunk
  if p1.config.returnParsedJson then
    match parse p1.lastBalancedString with
    | some v => ({ p1 with lastParsedData := some v }, ChunkResult.parsed v)
    | none => (p1, ChunkResult.text p1.lastBalancedString)
  else (p1, ChunkResult.text p1.lastBalancedString)

/-- `getCurrentData`: the stored decoded value (possibly still the initial
`null`, modelled as `none`) when `returnParsedJson`, else the stored text. -/
def getCurrentData (p : StreamingJsonParser) : Option JsonValue ⊕ List Char :=
  if p.config.returnParsedJson then Sum.inl p.lastParsedData
  else Sum.inr p.lastBalancedString

/-- `validateStreamingJson` (the spec's `balanceOnce`): one shot through a
fresh parser. -/
def validateStreamingJson (parse : List Char → Option JsonValue)
    (cfg : JsonParserConfig) (input : List Char) : ChunkResult :=
  (appendChunk parse (mkParser cfg) input).2

/-! ## Helper lemmas about the closing loop -/

/-- The `bracket` insertion records produced when the pending closers are
appended starting at text length `n`. -/
def bracketRecs (n : Nat) : List Char → List DummyValue
  | [] => []
  | c :: rest => { position := n, value := [c], type := "bracket" } :: bracketRecs (n + 1) rest

theorem closeBrackets_fst (stack res : List Char) (dv : List DummyValue) :
    (closeBrackets stack res dv).1 = res ++ stack := by
  induction stack generalizing res dv with
  | nil => simp [closeBrackets]
  | cons c rest ih => simp [closeBrackets, ih]

theorem closeBrackets_snd (stack res : List Char) (dv : List DummyValue) :
    (closeBrackets stack res dv).2 = dv ++ bracketRecs res.length stack := by
  induction stack generalizing res dv with
  | nil => simp [closeBrackets, bracketRecs]
  | cons c rest ih => simp [closeBrackets, ih, bracketRecs]

theorem bracketRecs_type (n : Nat) (stack : List Char) :
    ∀ d ∈ bracketRecs n stack, d.type = "bracket" := by
  induction stack generalizing n with
  | nil => simp [bracketRecs]
  | cons c rest ih =>
      intro d hd
      rcases List.mem_cons.mp hd with rfl | h
      · rfl
      · exact ih (n + 1) d h

/-! ## Helper lemmas about single scanner steps -/


theorem quoteToggle_stack (st : BracketScanState) (c : Char) :
    (quoteToggle st c).stack = st.stack := by
  unfold quoteToggle; split_ifs <;> rfl

theorem quoteToggle_lastSig (st : BracketScanState) (c : Char) :
    (quoteToggle st c).lastNonWhitespaceChar = st.lastNonWhitespaceChar := by
  unfold quoteToggle; split_ifs <;> rfl

theorem quoteToggle_escaped (st : BracketScanState) (c : Char) :
    (quoteToggle st c).escaped = st.escaped := by
  unfold quoteToggle; split_ifs <;> rfl

theorem bracketTrack_stack_cases (st : BracketScanState) (c : Char) :
    (bracketTrack st c).stack = st.stack ∨ (bracketTrack st c).stack = st.stack.tail ∨
      (bracketTrack st c).stack = '}' :: st.stack ∨
      (bracketTrack st c).stack = ']' :: st.stack := by
  unfold bracketTrack; split_ifs <;> simp

theorem lastSigTrack_stack (st : BracketScanState) (c : Char) :
    (lastSigTrack st c).stack = st.stack := by
  unfold lastSigTrack; split_ifs <;> rfl

/-- The string-tracking fields of the bracket scan. -/
def strProj (st : BracketScanState) : QuoteScanState :=
  { inString := st.inString, stringChar := st.stringChar, escaped := st.escaped }

@[simp] theorem strProj_inString (st : BracketScanState) :
    (strProj st).inString = st.inString := rfl

@[simp] theorem strProj_stringChar (st : BracketScanState) :
    (strProj st).stringChar = st.stringChar := rfl

@[simp] theorem strProj_escaped (st : BracketScanState) :
    (strProj st).escaped = st.escaped := rfl

theorem bracketTrack_strProj (st : BracketScanState) (c : Char) :
    strProj (bracketTrack st c) = strProj st := by
  unfold bracketTrack strProj; split_ifs <;> rfl

theorem lastSigTrack_strProj (st : BracketScanState) (c : Char) :
    strProj (lastSigTrack st c) = strProj st := by
  unfold lastSigTrack strProj; split_ifs <;> rfl

/-- The bracket-pass step acts on its string-tracking fields exactly as the
quote toggle does, regardless of the stack section. -/
theorem bracketStep_strProj (st : BracketScanState) (c : Char) :
    strProj (bracketStep st c) =
      (if st.escaped then { strProj st with escaped := false }
       else if c = bslash then { strProj st with escaped := true }
       else strProj (quoteToggle st c)) := by
  simp only [bracketStep]
  split_ifs with e1 e2 e3
  · rfl
  · rfl
  · rw [lastSigTrack_strProj, bracketTrack_strProj]
  · rfl

/-- A scanner state is well formed when the recorded open-string character is
one of the two quote characters. -/
def StrWF (q : QuoteScanState) : Prop :=
  q.inString = true → q.stringChar = some dquote ∨ q.stringChar = some squote

@[simp] theorem shouldProcessQuote_default (c : Char) :
    shouldProcessQuote DEFAULT_CONFIG c :=
  Or.inl rfl

theorem quoteStep_strWF (cfg : JsonParserConfig) (q : QuoteScanState) (c : Char)
    (h : StrWF q) : StrWF (quoteStep cfg q c) := by
  unfold StrWF at *
  unfold quoteStep
  split_ifs <;> simp_all

theorem quoteToggle_agree (st : BracketScanState) (c : Char)
    (h : StrWF (strProj st)) :
    strProj (quoteToggle st c) =
      (if shouldProcessQuote DEFAULT_CONFIG c ∧ (c = dquote ∨ c = squote) then
        if (strProj st).inString = false then
          { strProj st with inString := true, stringChar := some c }
        else if (strProj st).stringChar = some c then
          { strProj st with inString := false, stringChar := none }
        else strProj st
      else strProj st) := by
  unfold StrWF at h
  simp only [shouldProcessQuote_default, true_and, strProj_inString, strProj_stringChar]
  unfold quoteToggle
  split_ifs <;> first | rfl | (simp_all [strProj])

theorem bracketStep_agree (st : BracketScanState) (c : Char)
    (h : StrWF (strProj st)) :
    strProj (bracketStep st c) = quoteStep DEFAULT_CONFIG (strProj st) c := by
  rw [bracketStep_strProj, quoteToggle_agree st c h]
  simp only [quoteStep, strProj_inString, strProj_stringChar, strProj_escaped]

theorem bracketStep_strWF (st : BracketScanState) (c : Char)
    (h : StrWF (strProj st)) : StrWF (strProj (bracketStep st c)) := by
  rw [bracketStep_agree st c h]
  exact quoteStep_strWF DEFAULT_CONFIG (strProj st) c h

theorem foldl_agree (cs : List Char) : ∀ st : BracketScanState,
    StrWF (strProj st) →
    strProj (cs.foldl bracketStep st) =
        cs.foldl (quoteStep DEFAULT_CONFIG) (strProj st) ∧
      StrWF (strProj (cs.foldl bracketStep st)) := by
  induction cs with
  | nil => intro st h; exact ⟨rfl, h⟩
  | cons c rest ih =>
      intro st h
      simp only [List.foldl_cons]
      obtain ⟨e1, e2⟩ := ih (bracketStep st c) (bracketStep_strWF st c h)
      refine ⟨?_, e2⟩
      rw [e1, bracketStep_agree st c h]

theorem strWF_init : StrWF (strProj ({} : BracketScanState)) := by
  intro h
  simp [strProj] at h

theorem quoteScan_default_eq (s : List Char) :
    quoteScan DEFAULT_CONFIG s = strProj (bracketScan s) := by
  have h := (foldl_agree s {} strWF_init).1
  unfold quoteScan bracketScan
  rw [h]
  rfl

theorem bracketScan_strWF (s : List Char) : StrWF (strProj (bracketScan s)) :=
  (foldl_agree s {} strWF_init).2

theorem bracketStep_plain (st : BracketScanState) (c : Char)
    (hin : st.inString = false) (he : st.escaped = false)
    (h1 : c ≠ bslash) (h2 : c ≠ dquote) (h3 : c ≠ squote)
    (h4 : c ≠ '{') (h5 : c ≠ '[') (h6 : c ≠ '}') (h7 : c ≠ ']') :
    (bracketStep st c).stack = st.stack ∧ (bracketStep st c).inString = false ∧
      (bracketStep st c).escaped = false := by
  have hqt : quoteToggle st c = st := by simp [quoteToggle, h2, h3, hin]
  have hbt : bracketTrack st c = st := by simp [bracketTrack, h4, h5, h6, h7]
  have hst : bracketStep st c = lastSigTrack st c := by
    simp [bracketStep, he, h1, hqt, hin, hbt]
  rw [hst]
  unfold lastSigTrack
  split_ifs <;> exact ⟨rfl, hin, he⟩

theorem bracketStep_closer (st : BracketScanState) (c : Char)
    (hin : st.inString = false) (he : st.escaped = false)
    (hc : c = '}' ∨ c = ']') (htop : st.stack.head? = some c) :
    bracketStep st c =
      { st with stack := st.stack.tail, lastNonWhitespaceChar := some c } := by
  have h1 : c ≠ bslash := by rcases hc with rfl | rfl <;> decide
  have h2 : c ≠ dquote := by rcases hc with rfl | rfl <;> decide
  have h3 : c ≠ squote := by rcases hc with rfl | rfl <;> decide
  have h4 : ¬(c = '{' ∨ c = '[') := by rcases hc with rfl | rfl <;> decide
  have h5 : ¬isJsWhitespace c := by rcases hc with rfl | rfl <;> decide
  have hqt : quoteToggle st c = st := by simp [quoteToggle, h2, h3, hin]
  have hbt : bracketTrack st c = { st with stack := st.stack.tail } := by
    simp [bracketTrack, h4, hc, htop]
  simp [bracketStep, he, h1, hqt, hin, hbt, lastSigTrack, h5]

theorem bracketStep_close_quote (st : BracketScanState) (q : Char)
    (hq : q = dquote ∨ q = squote) (hin : st.inString = true)
    (hsc : st.stringChar = some q) (he : st.escaped = false) :
    bracketStep st q =
      { st with inString := false, stringChar := none, lastNonWhitespaceChar := some q } := by
  have h1 : q ≠ bslash := by rcases hq with rfl | rfl <;> decide
  have h4 : ¬(q = '{' ∨ q = '[') := by rcases hq with rfl | rfl <;> decide
  have h6 : ¬(q = '}' ∨ q = ']') := by rcases hq with rfl | rfl <;> decide
  have h5 : ¬isJsWhitespace q := by rcases hq with rfl | rfl <;> decide
  have hqt : quoteToggle st q = { st with inString := false, stringChar := none } := by
    simp [quoteToggle, hin, hsc]
  have hbt : ∀ r : BracketScanState, bracketTrack r q = r := by
    intro r; simp [bracketTrack, h4, h6]
  simp [bracketStep, he, h1, hqt, hbt, lastSigTrack, h5]

theorem bracketStep_stack_cases (st : BracketScanState) (c : Char) :
    (bracketStep st c).stack = st.stack ∨ (bracketStep st c).stack = st.stack.tail ∨
      (bracketStep st c).stack = '}' :: st.stack ∨
      (bracketStep st c).stack = ']' :: st.stack := by
  by_cases e1 : st.escaped
  · left; simp [bracketStep, e1]
  by_cases e2 : c = bslash
  · left; simp [bracketStep, e1, e2]
  have hstep : bracketStep st c =
      if (quoteToggle st c).inString = false then
        lastSigTrack (bracketTrack (quoteToggle st c) c) c
      else quoteToggle st c := by
    simp [bracketStep, e1, e2]
  rw [hstep]
  split_ifs
  · rw [lastSigTrack_stack]
    rcases bracketTrack_stack_cases (quoteToggle st c) c with h | h | h | h <;>
      rw [h, quoteToggle_stack] <;> tauto
  · rw [quoteToggle_stack]; tauto

theorem bracketStep_stack_mem (st : BracketScanState) (c : Char)
    (h : ∀ x ∈ st.stack, x = '}' ∨ x = ']') :
    ∀ x ∈ (bracketStep st c).stack, x = '}' ∨ x = ']' := by
  rcases bracketStep_stack_cases st c with hc | hc | hc | hc <;> rw [hc] <;> intro x hx
  · exact h x hx
  · exact h x (List.tail_subset _ hx)
  · rcases List.mem_cons.mp hx with rfl | hx2
    · exact Or.inl rfl
    · exact h x hx2
  · rcases List.mem_cons.mp hx with rfl | hx2
    · exact Or.inr rfl
    · exact h x hx2

theorem bracketScan_stack_mem (s : List Char) :
    ∀ x ∈ (bracketScan s).stack, x = '}' ∨ x = ']' := by
  have aux : ∀ cs : List Char, ∀ st : BracketScanState,
      (∀ x ∈ st.stack, x = '}' ∨ x = ']') →
      ∀ x ∈ (cs.foldl bracketStep st).stack, x = '}' ∨ x = ']' := by
    intro cs
    induction cs with
    | nil => intro st h; exact h
    | cons c rest ih =>
        intro st h
        simp only [List.foldl_cons]
        exact ih (bracketStep st c) (bracketStep_stack_mem st c h)
  exact aux s {} (by simp)

theorem foldl_plain (cs : List Char) : ∀ st : BracketScanState,
    (∀ c ∈ cs, c ≠ bslash ∧ c ≠ dquote ∧ c ≠ squote ∧ c ≠ '{' ∧ c ≠ '[' ∧
      c ≠ '}' ∧ c ≠ ']') →
    st.inString = false → st.escaped = false →
    (cs.foldl bracketStep st).stack = st.stack ∧
      (cs.foldl bracketStep st).inString = false ∧
      (cs.foldl bracketStep st).escaped = false := by
  induction cs with
  | nil => intro st _ hin he; exact ⟨rfl, hin, he⟩
  | cons c rest ih =>
      intro st hcs hin he
      obtain ⟨a1, a2, a3, a4, a5, a6, a7⟩ := hcs c (List.mem_cons_self c rest)
      obtain ⟨e1, e2, e3⟩ := bracketStep_plain st c hin he a1 a2 a3 a4 a5 a6 a7
      simp only [List.foldl_cons]
      obtain ⟨f1, f2, f3⟩ :=
        ih (bracketStep st c) (fun d hd => hcs d (List.mem_cons_of_mem c hd)) e2 e3
      exact ⟨f1.trans e1, f2, f3⟩

theorem foldl_closers (cs : List Char) : ∀ st : BracketScanState,
    st.inString = false → st.escaped = false → st.stack = cs →
    (∀ c ∈ cs, c = '}' ∨ c = ']') →
    (cs.foldl bracketStep st).stack = [] ∧
      (cs.foldl bracketStep st).inString = false := by
  induction cs with
  | nil => intro st hin _ hstack _; exact ⟨hstack, hin⟩
  | cons c rest ih =>
      intro st hin he hstack hmem
      have hc := hmem c (List.mem_cons_self c rest)
      have htop : st.stack.head? = some c := by rw [hstack]; rfl
      have hstep := bracketStep_closer st c hin he hc htop
      simp only [List.foldl_cons, hstep]
      refine ih _ hin he ?_ (fun d hd => hmem d (List.mem_cons_of_mem c hd))
      show st.stack.tail = rest
      rw [hstack]
      rfl

/-! ## Characterizations of the two passes and the one-shot operation -/

theorem nullChars_plain :
    ∀ c ∈ nullChars, c ≠ bslash ∧ c ≠ dquote ∧ c ≠ squote ∧ c ≠ '{' ∧ c ≠ '[' ∧
      c ≠ '}' ∧ c ≠ ']' := by
  decide

theorem balanceQuotes_closed (cfg : JsonParserConfig) (s : List Char)
    (h : (quoteScan cfg s).inString = false) :
    balanceQuotes cfg s = (s, []) := by
  unfold balanceQuotes
  rcases hsc : (quoteScan cfg s).stringChar with _ | q <;> simp [h, hsc]

theorem balanceQuotes_open (cfg : JsonParserConfig) (s : List Char) (q : Char)
    (hin : (quoteScan cfg s).inString = true)
    (hsc : (quoteScan cfg s).stringChar = some q) :
    balanceQuotes cfg s =
      (s ++ [q], [{ position := s.length, value := [q], type := "quote" }]) := by
  unfold balanceQuotes
  simp [hin, hsc]

theorem balanceBrackets_fst_shape (s : List Char) :
    (balanceBrackets s).1 = s ++ (bracketScan s).stack ∨
      (balanceBrackets s).1 = (s ++ nullChars) ++ (bracketScan s).stack := by
  simp only [balanceBrackets]
  split_ifs <;> simp [closeBrackets_fst]

theorem scan_append_closers (base : List Char) (cs : List Char)
    (h1 : (bracketScan base).stack = cs)
    (h2 : (bracketScan base).inString = false)
    (h3 : (bracketScan base).escaped = false)
    (hmem : ∀ c ∈ cs, c = '}' ∨ c = ']') :
    (bracketScan (base ++ cs)).stack = [] ∧
      (bracketScan (base ++ cs)).inString = false := by
  unfold bracketScan
  rw [List.foldl_append]
  exact foldl_closers cs _ h2 h3 h1 hmem

theorem balanceBrackets_scan_closed (base : List Char)
    (hin : (bracketScan base).inString = false)
    (he : (bracketScan base).escaped = false) :
    (bracketScan (balanceBrackets base).1).stack = [] ∧
      (bracketScan (balanceBrackets base).1).inString = false := by
  rcases balanceBrackets_fst_shape base with hbb | hbb <;> rw [hbb]
  · exact scan_append_closers base _ rfl hin he (bracketScan_stack_mem base)
  · have hplain := foldl_plain nullChars (bracketScan base) nullChars_plain hin he
    have hsc : bracketScan (base ++ nullChars) =
        List.foldl bracketStep (bracketScan base) nullChars := by
      unfold bracketScan
      rw [List.foldl_append]
    refine scan_append_closers (base ++ nullChars) ((bracketScan base).stack)
      ?_ ?_ ?_ (bracketScan_stack_mem base)
    · rw [hsc]; exact hplain.1
    · rw [hsc]; exact hplain.2.1
    · rw [hsc]; exact hplain.2.2

theorem bracketScan_append_quote (s : List Char) (q : Char)
    (hq : q = dquote ∨ q = squote) (hin : (bracketScan s).inString = true)
    (hsc : (bracketScan s).stringChar = some q)
    (he : (bracketScan s).escaped = false) :
    bracketScan (s ++ [q]) =
      { bracketScan s with inString := false, stringChar := none, lastNonWhitespaceChar := some q } := by
  unfold bracketScan
  rw [List.foldl_append]
  simp only [List.foldl_cons, List.foldl_nil]
  exact bracketStep_close_quote (bracketScan s) q hq hin hsc he

theorem validateAndBalance_scan_closed (s : List Char)
    (he : (bracketScan s).escaped = false) :
    (bracketScan (validateAndBalance DEFAULT_CONFIG s).1).stack = [] ∧
      (bracketScan (validateAndBalance DEFAULT_CONFIG s).1).inString = false := by
  by_cases hs : s = []
  · subst hs
    exact ⟨rfl, rfl⟩
  · have hie : s.isEmpty = false := by
      simpa [List.isEmpty_iff] using hs
    have hcfg : DEFAULT_CONFIG.balanceQuotes = true := rfl
    have hvb : (validateAndBalance DEFAULT_CONFIG s).1 =
        (balanceBrackets (balanceQuotes DEFAULT_CONFIG s).1).1 := by
      simp [validateAndBalance, hie, hcfg]
    by_cases hin : (bracketScan s).inString
    · have hwf := bracketScan_strWF s
      have hq : (bracketScan s).stringChar = some dquote ∨
          (bracketScan s).stringChar = some squote := hwf hin
      obtain ⟨q, hqc, hsc⟩ : ∃ q, (q = dquote ∨ q = squote) ∧
          (bracketScan s).stringChar = some q := by
        rcases hq with h | h
        · exact ⟨dquote, Or.inl rfl, h⟩
        · exact ⟨squote, Or.inr rfl, h⟩
      have hbq : (balanceQuotes DEFAULT_CONFIG s).1 = s ++ [q] := by
        rw [balanceQuotes_open DEFAULT_CONFIG s q
          (by rw [quoteScan_default_eq]; exact hin)
          (by rw [quoteScan_default_eq]; exact hsc)]
      have hstep := bracketScan_append_quote s q hqc hin hsc he
      rw [hvb, hbq]
      refine balanceBrackets_scan_closed (s ++ [q]) ?_ ?_
      · rw [hstep]
      · rw [hstep]
        exact he
    · have hinf : (bracketScan s).inString = false := by
        simpa using hin
      have hbq : (balanceQuotes DEFAULT_CONFIG s).1 = s := by
        rw [balanceQuotes_closed DEFAULT_CONFIG s
          (by rw [quoteScan_default_eq]; exact hinf)]
      rw [hvb, hbq]
      exact balanceBrackets_scan_closed s hinf he

/-- The balanced text of the one-shot operation (`validateStreamingJson`
returns it wrapped in `ChunkResult.text` when not decoding). -/
def balanceOnce (cfg : JsonParserConfig) (input : List Char) : List Char :=
  (validateAndBalance cfg input).1

theorem validateStreamingJson_text (parse : List Char → Option JsonValue)
    (cfg : JsonParserConfig) (s : List Char) (h : cfg.returnParsedJson = false) :
    validateStreamingJson parse cfg s = ChunkResult.text (balanceOnce cfg s) := by
  unfold validateStreamingJson appendChunk appendBalance mkParser balanceOnce
  simp [h]

theorem balanceBrackets_stack_empty (s : List Char)
    (h : (bracketScan s).stack = []) : balanceBrackets s = (s, []) := by
  simp [balanceBrackets, h, closeBrackets]

theorem validateAndBalance_stable (s : List Char)
    (h1 : (bracketScan s).stack = []) (h2 : (bracketScan s).inString = false) :
    validateAndBalance DEFAULT_CONFIG s = (s, []) := by
  by_cases hs : s = []
  · subst hs; rfl
  · have hie : s.isEmpty = false := by simpa [List.isEmpty_iff] using hs
    have hcfg : DEFAULT_CONFIG.balanceQuotes = true := rfl
    have hbq : balanceQuotes DEFAULT_CONFIG s = (s, []) :=
      balanceQuotes_closed DEFAULT_CONFIG s (by rw [quoteScan_default_eq]; exact h2)
    have hbb := balanceBrackets_stack_empty s h1
    simp [validateAndBalance, hie, hcfg, hbq, hbb]

theorem balanceBrackets_null (s : List Char)
    (hst : (bracketScan s).stack ≠ [])
    (hlast : (bracketScan s).lastNonWhitespaceChar = some ':') :
    balanceBrackets s = (s ++ nullChars ++ (bracketScan s).stack,
      { position := s.length, value := nullChars, type := "value" } ::
        bracketRecs (s.length + 4) (bracketScan s).stack) := by
  have hlen : (s ++ nullChars).length = s.length + 4 := by
    simp [nullChars]
  simp only [balanceBrackets]
  rw [if_pos ⟨Or.inl hlast, hst⟩, if_pos hlast]
  refine Prod.ext ?_ ?_
  · rw [closeBrackets_fst, List.append_assoc]
  · rw [closeBrackets_snd, hlen]
    rfl

theorem balanceBrackets_closers_only (s : List Char)
    (hlast : (bracketScan s).lastNonWhitespaceChar = some ',' ∨
      (bracketScan s).lastNonWhitespaceChar = some '[') :
    balanceBrackets s =
      (s ++ (bracketScan s).stack, bracketRecs s.length (bracketScan s).stack) := by
  have hne : ¬(bracketScan s).lastNonWhitespaceChar = some ':' := by
    rcases hlast with h | h <;> rw [h] <;> decide
  simp only [balanceBrackets]
  by_cases hcond : ((bracketScan s).lastNonWhitespaceChar = some ':' ∨
      (bracketScan s).lastNonWhitespaceChar = some '[' ∨
      (bracketScan s).lastNonWhitespaceChar = some ',') ∧ (bracketScan s).stack ≠ []
  · rw [if_pos hcond, if_neg hne]
    exact Prod.ext (closeBrackets_fst _ _ _) (by rw [closeBrackets_snd]; rfl)
  · rw [if_neg hcond]
    exact Prod.ext (closeBrackets_fst _ _ _) (by rw [closeBrackets_snd]; rfl)

theorem balanceQuotes_fst_append (cfg : JsonParserConfig) (s : List Char) :
    ∃ t, (balanceQuotes cfg s).1 = s ++ t := by
  unfold balanceQuotes
  rcases h : (quoteScan cfg s).stringChar with _ | q
  · exact ⟨[], by simp [h]⟩
  · by_cases hin : (quoteScan cfg s).inString
    · exact ⟨[q], by simp [h, hin]⟩
    · exact ⟨[], by simp [h, hin]⟩

theorem balanceBrackets_fst_append (s : List Char) :
    ∃ t, (balanceBrackets s).1 = s ++ t := by
  rcases balanceBrackets_fst_shape s with h | h
  · exact ⟨_, h⟩
  · exact ⟨nullChars ++ (bracketScan s).stack, by rw [h, List.append_assoc]⟩

theorem validateAndBalance_fst_append (cfg : JsonParserConfig) (s : List Char) :
    ∃ t, (validateAndBalance cfg s).1 = s ++ t := by
  by_cases hs : s = []
  · subst hs; exact ⟨[], rfl⟩
  · have hie : s.isEmpty = false := by simpa [List.isEmpty_iff] using hs
    by_cases hbq : cfg.balanceQuotes
    · obtain ⟨t1, h1⟩ := balanceQuotes_fst_append cfg s
      obtain ⟨t2, h2⟩ := balanceBrackets_fst_append (balanceQuotes cfg s).1
      rw [h1] at h2
      refine ⟨t1 ++ t2, ?_⟩
      simp [validateAndBalance, hie, hbq, h1, h2, List.append_assoc]
    · obtain ⟨t2, h2⟩ := balanceBrackets_fst_append s
      refine ⟨t2, ?_⟩
      simp only [validateAndBalance, hie]
      simp [hbq, h2]

theorem appendBalance_config (p : StreamingJsonParser) (chunk : List Char) :
    (appendBalance p chunk).config = p.config := by
  unfold appendBalance; split_ifs <;> rfl

theorem appendBalance_lastParsed (p : StreamingJsonParser) (chunk : List Char) :
    (appendBalance p chunk).lastParsedData = p.lastParsedData := by
  unfold appendBalance; split_ifs <;> rfl

theorem retractDummies_of_suffix (base : List Char) (ds : List DummyValue) :
    ∃ u, retractDummies base ds ++ u = base := by
  induction ds generalizing base with
  | nil => exact ⟨[], by simp [retractDummies]⟩
  | cons d rest ih =>
      have hstep : ∃ w,
          (if d.value.isSuffixOf base then
            (if d.value.length = 0 then [] else base.take (base.length - d.value.length))
          else base) ++ w = base := by
        split_ifs with hsuf hzero
        · exact ⟨base, by simp⟩
        · exact ⟨base.drop (base.length - d.value.length), List.take_append_drop _ _⟩
        · exact ⟨[], by simp⟩
      obtain ⟨w, hw⟩ := hstep
      obtain ⟨u, hu⟩ := ih (base.take (base.length - d.value.length))
      obtain ⟨u2, hu2⟩ := ih ([] : List Char)
      obtain ⟨u3, hu3⟩ := ih base
      show ∃ u, retractDummies
        (if d.value.isSuffixOf base then
          (if d.value.length = 0 then [] else base.take (base.length - d.value.length))
        else base) rest ++ u = base
      split_ifs with hsuf hzero
      · simp only [hzero] at *
        exact ⟨u2 ++ base, by rw [← List.append_assoc, hu2]; simp⟩
      · refine ⟨u ++ base.drop (base.length - d.value.length), ?_⟩
        rw [← List.append_assoc, hu, List.take_append_drop]
      · exact ⟨u3, hu3⟩

instance : IsTotal DummyValue (fun a b => b.position ≤ a.position) :=
  ⟨fun a b => (Nat.le_total b.position a.position)⟩

instance : IsTrans DummyValue (fun a b => b.position ≤ a.position) :=
  ⟨fun _ _ _ hab hbc => le_trans hbc hab⟩

theorem sortDummiesDesc_sorted (l : List DummyValue) :
    List.Sorted (fun a b => b.position ≤ a.position) (sortDummiesDesc l) :=
  List.sorted_insertionSort _ l

theorem appendChunk_state (parse : List Char → Option JsonValue)
    (p : StreamingJsonParser) (chunk : List Char) :
    (appendChunk parse p chunk).1.lastBalancedString =
        (appendBalance p chunk).lastBalancedString ∧
      (appendChunk parse p chunk).1.addedDummyValues =
        (appendBalance p chunk).addedDummyValues := by
  unfold appendChunk
  by_cases h : (appendBalance p chunk).config.returnParsedJson
  · rcases hp : parse (appendBalance p chunk).lastBalancedString with _ | v <;>
      simp [h, hp]
  · simp [h]

theorem appendBalance_fresh (cfg : JsonParserConfig) (chunk : List Char) :
    appendBalance (mkParser cfg) chunk =
      { mkParser cfg with
          lastBalancedString := (validateAndBalance cfg chunk).1,
          addedDummyValues := (validateAndBalance cfg chunk).2 } := by
  unfold appendBalance mkParser
  simp

theorem appendBalance_subsequent (p : StreamingJsonParser) (chunk : List Char)
    (h : p.lastBalancedString ≠ []) :
    (appendBalance p chunk).lastBalancedString =
        (validateAndBalance p.config
          (retractDummies p.lastBalancedString
            (sortDummiesDesc p.addedDummyValues) ++ chunk)).1 ∧
      (appendBalance p chunk).addedDummyValues =
        (validateAndBalance p.config
          (retractDummies p.lastBalancedString
            (sortDummiesDesc p.addedDummyValues) ++ chunk)).2 := by
  have hie : p.lastBalancedString.isEmpty = false := by
    simpa [List.isEmpty_iff] using h
  unfold appendBalance
  simp [hie]

theorem balanceQuotes_snd_shape (cfg : JsonParserConfig) (s : List Char) :
    (balanceQuotes cfg s).2 = [] ∨
      ∃ q, (balanceQuotes cfg s).2 =
        [{ position := s.length, value := [q], type := "quote" }] := by
  unfold balanceQuotes
  rcases h : (quoteScan cfg s).stringChar with _ | q
  · left; simp [h]
  · by_cases hin : (quoteScan cfg s).inString
    · right; exact ⟨q, by simp [h, hin]⟩
    · left; simp [h, hin]

theorem balanceBrackets_snd_shape (s : List Char) :
    (balanceBrackets s).2 = bracketRecs s.length (bracketScan s).stack ∨
      (balanceBrackets s).2 =
        { position := s.length, value := nullChars, type := "value" } ::
          bracketRecs (s.length + 4) (bracketScan s).stack := by
  have hlen : (s ++ nullChars).length = s.length + 4 := by simp [nullChars]
  simp only [balanceBrackets]
  split_ifs
  · right
    rw [closeBrackets_snd, hlen]
    rfl
  · left
    rw [closeBrackets_snd]
    rfl
  · left
    rw [closeBrackets_snd]
    rfl

theorem validateAndBalance_value_recs (cfg : JsonParserConfig) (s : List Char) :
    ∀ d ∈ (validateAndBalance cfg s).2, d.type = "value" → d.value = nullChars := by
  by_cases hs : s = []
  · subst hs
    intro d hd
    simp [validateAndBalance] at hd
  · have hie : s.isEmpty = false := by simpa [List.isEmpty_iff] using hs
    have hb : ∀ u : List Char, ∀ d ∈ (balanceBrackets u).2,
        d.type = "value" → d.value = nullChars := by
      intro u d hd htype
      rcases balanceBrackets_snd_shape u with h | h <;> rw [h] at hd
      · exact absurd (bracketRecs_type _ _ d hd) (by rw [htype]; decide)
      · rcases List.mem_cons.mp hd with rfl | hd2
        · rfl
        · exact absurd (bracketRecs_type _ _ d hd2) (by rw [htype]; decide)
    have hq : ∀ d ∈ (if cfg.balanceQuotes then balanceQuotes cfg s else (s, [])).2,
        d.type = "value" → d.value = nullChars := by
      by_cases hbq : cfg.balanceQuotes <;> simp only [hbq, if_true, if_false]
      · intro d hd htype
        rcases balanceQuotes_snd_shape cfg s with h | ⟨q, h⟩ <;> rw [h] at hd
        · exact absurd hd (List.not_mem_nil d)
        · rcases List.mem_cons.mp hd with rfl | hd2
          · simp at htype
          · exact absurd hd2 (List.not_mem_nil d)
      · intro d hd
        exact absurd hd (List.not_mem_nil d)
    intro d hd htype
    simp only [validateAndBalance, hie] at hd
    simp only [Bool.false_eq_true, if_false] at hd
    rcases List.mem_append.mp hd with h | h
    · exact hq d h htype
    · exact hb _ d h htype

theorem ws_not_special (c : Char) (h : isJsWhitespace c) :
    c ≠ bslash ∧ c ≠ dquote ∧ c ≠ squote ∧ c ≠ '{' ∧ c ≠ '[' ∧ c ≠ '}' ∧
      c ≠ ']' := by
  have hall : ∀ x ∈ jsWhitespaceChars, x ≠ bslash ∧ x ≠ dquote ∧ x ≠ squote ∧
      x ≠ '{' ∧ x ≠ '[' ∧ x ≠ '}' ∧ x ≠ ']' := by decide
  exact hall c h

theorem quoteStep_ws (cfg : JsonParserConfig) (c : Char) (h : isJsWhitespace c) :
    quoteStep cfg ({} : QuoteScanState) c = {} := by
  obtain ⟨h1, h2, h3, _⟩ := ws_not_special c h
  simp [quoteStep, h1, h2, h3]

theorem quoteScan_ws (cfg : JsonParserConfig) :
    ∀ s : List Char, (∀ c ∈ s, isJsWhitespace c) → quoteScan cfg s = {} := by
  unfold quoteScan
  intro s
  induction s with
  | nil => intro _; rfl
  | cons c rest ih =>
      intro h
      simp only [List.foldl_cons, quoteStep_ws cfg c (h c (List.mem_cons_self c rest))]
      exact ih (fun d hd => h d (List.mem_cons_of_mem c hd))

theorem bracketStep_ws (c : Char) (h : isJsWhitespace c) :
    bracketStep ({} : BracketScanState) c = {} := by
  obtain ⟨h1, h2, h3, h4, h5, h6, h7⟩ := ws_not_special c h
  have hqt : quoteToggle {} c = {} := by simp [quoteToggle, h2, h3]
  have hbt : bracketTrack {} c = {} := by simp [bracketTrack, h4, h5, h6, h7]
  simp [bracketStep, h1, hqt, hbt, lastSigTrack, h]

theorem bracketScan_ws :
    ∀ s : List Char, (∀ c ∈ s, isJsWhitespace c) → bracketScan s = {} := by
  unfold bracketScan
  intro s
  induction s with
  | nil => intro _; rfl
  | cons c rest ih =>
      intro h
      simp only [List.foldl_cons, bracketStep_ws c (h c (List.mem_cons_self c rest))]
      exact ih (fun d hd => h d (List.mem_cons_of_mem c hd))

/-! ## Concrete inputs used by the claim theorems -/

/-- The truncated object of C1's counterexample: an open string whose last
character is a backslash. -/
def c1CexInput : List Char := ['{', dquote, bslash]

/-- A truncated object used to witness the closure theorem. -/
def c1WitInput : List Char := ['{', dquote, 'a', dquote, ':', ' ', '[', '1', ',']

/-- A session state after one chunk, used to witness the retraction theorem. -/
def c2Parser : StreamingJsonParser :=
  { config := DEFAULT_CONFIG
    lastParsedData := none
    lastBalancedString := ['{', '}']
    addedDummyValues := [{ position := 1, value := ['}'], type := "bracket" }] }

/-- A decoder that always fails, standing in for the host `JSON.parse`. -/
def c2Parse : List Char → Option JsonValue := fun _ => none

/-- The spec example `'{"name": "test", "value":'`. -/
def c3Input : List Char :=
  ['{', dquote, 'n', 'a', 'm', 'e', dquote, ':', ' ', dquote, 't', 'e', 's',
   't', dquote, ',', ' ', dquote, 'v', 'a', 'l', 'u', 'e', dquote, ':']

/-- The spec's expected repair `'{"name": "test", "value":null}'`. -/
def c3Expected : List Char :=
  ['{', dquote, 'n', 'a', 'm', 'e', dquote, ':', ' ', dquote, 't', 'e', 's',
   't', dquote, ',', ' ', dquote, 'v', 'a', 'l', 'u', 'e', dquote, ':',
   'n', 'u', 'l', 'l', '}']

/-- A configuration whose `dummyValues.null` placeholder is a non-default
literal. -/
def c4Cfg : JsonParserConfig := { DEFAULT_CONFIG with dummyNull := ['0'] }

/-- The truncated object `'{"a":'`. -/
def c4Input : List Char := ['{', dquote, 'a', dquote, ':']

/-- What the code produces for `c4Input`: the hardcoded `null` placeholder. -/
def c4Out : List Char := ['{', dquote, 'a', dquote, ':', 'n', 'u', 'l', 'l', '}']

/-- What the claim predicts for `c4Input` under `c4Cfg`: the configured `0`. -/
def c4ClaimOut : List Char := ['{', dquote, 'a', dquote, ':', '0', '}']

/-- The configuration with `quoteType: 'single'`. -/
def singleQuoteCfg : JsonParserConfig :=
  { DEFAULT_CONFIG with quoteType := QuoteType.single }

/-- A double quote followed by an opening brace. -/
def c5Input : List Char := [dquote, '{']

/-- A bracket-scan state inside a single-quoted fragment. -/
def c5WitState : BracketScanState :=
  { stack := []
    inString := true
    stringChar := some squote
    escaped := false
    lastNonWhitespaceChar := none }

/-- A configuration that requests decoded values. -/
def c7Cfg : JsonParserConfig := { DEFAULT_CONFIG with returnParsedJson := true }

/-- A decoder that always fails, standing in for the host `JSON.parse`. -/
def c7Parse : List Char → Option JsonValue := fun _ => none

/-- A fresh session under `c7Cfg`. -/
def c7Parser : StreamingJsonParser := mkParser c7Cfg

/-- A structurally closed object used to witness idempotence. -/
def c8WitInput : List Char := ['{', dquote, 'a', dquote, ':', ' ', '1', '}']

/-- A configuration that requests decoded values (C10 witness). -/
def c10Cfg : JsonParserConfig := { DEFAULT_CONFIG with returnParsedJson := true }

/-- A decoder that always fails (C10 witness). -/
def c10Parse : List Char → Option JsonValue := fun _ => none

/-- A session that already holds a decoded value from an earlier chunk. -/
def c10Parser : StreamingJsonParser :=
  { config := c10Cfg
    lastParsedData := some JsonValue.null
    lastBalancedString := ['{', '}']
    addedDummyValues := [] }

/-! ## The claim theorems -/

/-- C1 (counterexample): for the input `{"\`, the default one-shot balance
returns `{"\"}`; rescanning that output leaves one unmatched `{` on the
stack and an open string, because the appended quote is eaten by the
trailing backslash escape.  This refutes the claim's universal
quantification over all inputs. -/
theorem structural_closure_cex :
    balanceOnce DEFAULT_CONFIG c1CexInput = ['{', dquote, bslash, dquote, '}'] ∧
      (bracketScan (balanceOnce DEFAULT_CONFIG c1CexInput)).stack = ['}'] ∧
      (bracketScan (balanceOnce DEFAULT_CONFIG c1CexInput)).inString = true := by
  decide

/-- C1 (amended): for every input whose scan does not end in a pending
backslash escape, the default one-shot balance produces an output with zero
unmatched `{`/`[` (empty scanner stack) and no open string when rescanned
left to right outside string context. -/
theorem structural_closure (s : List Char)
    (h : (bracketScan s).escaped = false) :
    (bracketScan (balanceOnce DEFAULT_CONFIG s)).stack = [] ∧
      (bracketScan (balanceOnce DEFAULT_CONFIG s)).inString = false := by
  unfold balanceOnce
  exact validateAndBalance_scan_closed s h

/-- Witness for the amended C1 theorem at the input `{"a": [1,`. -/
theorem structural_closure_witness :
    (bracketScan c1WitInput).escaped = false ∧
      ((bracketScan (balanceOnce DEFAULT_CONFIG c1WitInput)).stack = [] ∧
        (bracketScan (balanceOnce DEFAULT_CONFIG c1WitInput)).inString = false) :=
  ⟨by decide, structural_closure c1WitInput (by decide)⟩

/-- C2: on a non-first append (non-empty stored text), `appendChunk` stores
exactly the result of re-balancing `retracted base ++ chunk`, where the base
is obtained by processing the recorded insertions in descending position
order and removing each from the end of the text only when the text ends
with that exact literal; the retracted base is always a prefix of the stored
text (nothing but the recorded synthetic suffix is ever removed), and the
processing order is sorted by descending position. -/
theorem appendChunk_retraction (parse : List Char → Option JsonValue)
    (p : StreamingJsonParser) (chunk : List Char)
    (h : p.lastBalancedString ≠ []) :
    (appendChunk parse p chunk).1.lastBalancedString =
        (validateAndBalance p.config
          (retractDummies p.lastBalancedString
            (sortDummiesDesc p.addedDummyValues) ++ chunk)).1 ∧
      (appendChunk parse p chunk).1.addedDummyValues =
        (validateAndBalance p.config
          (retractDummies p.lastBalancedString
            (sortDummiesDesc p.addedDummyValues) ++ chunk)).2 ∧
      (∃ u, retractDummies p.lastBalancedString
          (sortDummiesDesc p.addedDummyValues) ++ u = p.lastBalancedString) ∧
      List.Sorted (fun a b : DummyValue => b.position ≤ a.position)
        (sortDummiesDesc p.addedDummyValues) := by
  obtain ⟨e1, e2⟩ := appendChunk_state parse p chunk
  obtain ⟨f1, f2⟩ := appendBalance_subsequent p chunk h
  exact ⟨e1.trans f1, e2.trans f2, retractDummies_of_suffix _ _,
    sortDummiesDesc_sorted _⟩

/-- Witness for the retraction theorem at a session holding `{}` with one
recorded closer insertion. -/
theorem appendChunk_retraction_witness :
    c2Parser.lastBalancedString ≠ [] ∧
      ((appendChunk c2Parse c2Parser []).1.lastBalancedString =
          (validateAndBalance c2Parser.config
            (retractDummies c2Parser.lastBalancedString
              (sortDummiesDesc c2Parser.addedDummyValues) ++ [])).1 ∧
        (appendChunk c2Parse c2Parser []).1.addedDummyValues =
          (validateAndBalance c2Parser.config
            (retractDummies c2Parser.lastBalancedString
              (sortDummiesDesc c2Parser.addedDummyValues) ++ [])).2 ∧
        (∃ u, retractDummies c2Parser.lastBalancedString
            (sortDummiesDesc c2Parser.addedDummyValues) ++ u =
              c2Parser.lastBalancedString) ∧
        List.Sorted (fun a b : DummyValue => b.position ≤ a.position)
          (sortDummiesDesc c2Parser.addedDummyValues)) :=
  ⟨by decide, appendChunk_retraction c2Parse c2Parser [] (by decide)⟩

/-- C3: after the bracket scan, a non-empty stack with last significant
character `:` appends the literal `null` (recorded as a `value` insertion at
the injection position) before the closers; a last significant character `,`
or `[` injects nothing and appends only closers (all insertions of kind
`bracket`); and concretely the spec example
`balanceOnce('{"name": "test", "value":')` yields
`'{"name": "test", "value":null}'`. -/
theorem bracket_value_injection (s : List Char) :
    ((bracketScan s).stack ≠ [] →
      (bracketScan s).lastNonWhitespaceChar = some ':' →
      (balanceBrackets s).1 = s ++ nullChars ++ (bracketScan s).stack ∧
        (balanceBrackets s).2 =
          { position := s.length, value := nullChars, type := "value" } ::
            bracketRecs (s.length + 4) (bracketScan s).stack) ∧
    (((bracketScan s).lastNonWhitespaceChar = some ',' ∨
        (bracketScan s).lastNonWhitespaceChar = some '[') →
      (balanceBrackets s).1 = s ++ (bracketScan s).stack ∧
        ∀ d ∈ (balanceBrackets s).2, d.type = "bracket") ∧
    (∀ parse, validateStreamingJson parse DEFAULT_CONFIG c3Input =
      ChunkResult.text c3Expected) := by
  refine ⟨?_, ?_, ?_⟩
  · intro h1 h2
    have hb := balanceBrackets_null s h1 h2
    exact ⟨by rw [hb], by rw [hb]⟩
  · intro h
    have hb := balanceBrackets_closers_only s h
    exact ⟨by rw [hb], by rw [hb]; exact bracketRecs_type _ _⟩
  · intro parse
    rw [validateStreamingJson_text parse DEFAULT_CONFIG c3Input rfl]
    exact congrArg ChunkResult.text (by decide)

/-- Witness for the value-injection theorem at the spec's own example
input. -/
theorem bracket_value_injection_witness :
    ((bracketScan c3Input).stack ≠ [] ∧
      (bracketScan c3Input).lastNonWhitespaceChar = some ':') ∧
      ((balanceBrackets c3Input).1 =
          c3Input ++ nullChars ++ (bracketScan c3Input).stack ∧
        (balanceBrackets c3Input).2 =
          { position := c3Input.length, value := nullChars, type := "value" } ::
            bracketRecs (c3Input.length + 4) (bracketScan c3Input).stack) :=
  ⟨⟨by decide, by decide⟩,
    (bracket_value_injection c3Input).1 (by decide) (by decide)⟩

/-- C4 (counterexample): with `dummyValues.null` configured to the literal
`0`, the injected value is still the fixed text `null`: the output for
`'{"a":'` is `'{"a":null}'`, not the claim's `'{"a":0}'`, and the recorded
`value` insertion does not carry the configured literal. -/
theorem dummy_null_cex :
    balanceOnce c4Cfg c4Input = c4Out ∧ c4Out ≠ c4ClaimOut ∧
      (∃ d ∈ (validateAndBalance c4Cfg c4Input).2,
        d.type = "value" ∧ d.value ≠ c4Cfg.dummyNull) := by
  decide

/-- C4 (amended): the balancing code never consults `dummyValues`: the
balanced result is unchanged under any `dummyNull` setting, and every
`value` insertion carries the fixed literal `null`. -/
theorem dummy_null_ignored (cfg : JsonParserConfig) (v : List Char)
    (s : List Char) :
    validateAndBalance { cfg with dummyNull := v } s = validateAndBalance cfg s ∧
      ∀ d ∈ (validateAndBalance cfg s).2, d.type = "value" →
        d.value = nullChars := by
  refine ⟨?_, validateAndBalance_value_recs cfg s⟩
  cases cfg
  rfl

/-- Witness for the amended C4 theorem: the default configuration with
`dummyNull := "0"` produces the same result as the default, and the
concrete `value` insertion for `'{"a":'` carries `null`. -/
theorem dummy_null_ignored_witness :
    (validateAndBalance { DEFAULT_CONFIG with dummyNull := ['0'] } c4Input =
        validateAndBalance DEFAULT_CONFIG c4Input) ∧
      ({ position := 5, value := nullChars, type := "value" } ∈
          (validateAndBalance DEFAULT_CONFIG c4Input).2 ∧
        ({ position := 5, value := nullChars, type := "value" } : DummyValue).value =
          nullChars) :=
  ⟨(dummy_null_ignored DEFAULT_CONFIG ['0'] c4Input).1,
    by decide,
    (dummy_null_ignored DEFAULT_CONFIG ['0'] c4Input).2 _ (by decide) (by decide)⟩

/-- C5 (counterexample): with `quoteType: 'single'`, a double quote is inert
in the quote pass, but in the bracket pass it does toggle string state: after
scanning a lone `"` the bracket scan is inside a string, and on the input
`"{` the opening brace is consequently never closed (the balanced output is
the input itself). -/
theorem quote_scoping_cex :
    quoteScan singleQuoteCfg [dquote] = {} ∧
      (bracketScan [dquote]).inString = true ∧
      balanceOnce singleQuoteCfg c5Input = c5Input := by
  decide

/-- C5 (amended): under `quoteType: 'single'` a double quote never toggles
string state in the quote pass, and inside an already-open single-quoted
fragment a double quote is also inert in the bracket pass; but the bracket
pass tracks both quote characters regardless of the configuration, so
outside a string a double quote does open one there. -/
theorem quote_scoping_amended (st : QuoteScanState) (bst : BracketScanState)
    (h1 : st.escaped = false) (h2 : bst.inString = true)
    (h3 : bst.stringChar = some squote) (h4 : bst.escaped = false) :
    quoteStep singleQuoteCfg st dquote = st ∧ bracketStep bst dquote = bst := by
  have hns : ¬shouldProcessQuote singleQuoteCfg dquote := by decide
  have hnb : dquote ≠ bslash := by decide
  constructor
  · simp [quoteStep, h1, hns, hnb]
  · have hne : squote ≠ dquote := by decide
    have hqt : quoteToggle bst dquote = bst := by
      simp [quoteToggle, h2, h3, hne]
    simp [bracketStep, h4, hnb, hqt, h2]

/-- Witness for the amended C5 theorem at a state inside a single-quoted
fragment. -/
theorem quote_scoping_amended_witness :
    (({} : QuoteScanState).escaped = false ∧ c5WitState.inString = true ∧
        c5WitState.stringChar = some squote ∧ c5WitState.escaped = false) ∧
      (quoteStep singleQuoteCfg {} dquote = {} ∧
        bracketStep c5WitState dquote = c5WitState) :=
  ⟨⟨rfl, rfl, rfl, rfl⟩,
    quote_scoping_amended {} c5WitState rfl rfl rfl rfl⟩

/-- C6: the balance operation is total by construction (it is a Lean
function); empty input yields the empty string with no insertions, and
whitespace-only input is returned unchanged with no insertions, under every
configuration; in text mode the one-shot wrapper returns that unchanged
input. -/
theorem balance_trivial_inputs (cfg : JsonParserConfig) (s : List Char) :
    validateAndBalance cfg [] = ([], []) ∧
      ((∀ c ∈ s, isJsWhitespace c) →
        validateAndBalance cfg s = (s, []) ∧
          ∀ parse, cfg.returnParsedJson = false →
            validateStreamingJson parse cfg s = ChunkResult.text s) := by
  refine ⟨rfl, fun hws => ?_⟩
  have hmain : validateAndBalance cfg s = (s, []) := by
    by_cases hs : s = []
    · subst hs; rfl
    · have hie : s.isEmpty = false := by simpa [List.isEmpty_iff] using hs
      have hq : quoteScan cfg s = {} := quoteScan_ws cfg s hws
      have hb : bracketScan s = {} := bracketScan_ws s hws
      have hbq : balanceQuotes cfg s = (s, []) :=
        balanceQuotes_closed cfg s (by rw [hq])
      have hbb : balanceBrackets s = (s, []) :=
        balanceBrackets_stack_empty s (by rw [hb])
      by_cases hc : cfg.balanceQuotes <;>
        simp [validateAndBalance, hie, hc, hbq, hbb]
  refine ⟨hmain, fun parse hr => ?_⟩
  rw [validateStreamingJson_text parse cfg s hr]
  unfold balanceOnce
  rw [hmain]

/-- Witness for the trivial-input theorem at the whitespace-only input
`"   "` under the default configuration. -/
theorem balance_trivial_inputs_witness :
    (∀ c ∈ ("   ".data), isJsWhitespace c) ∧
      (validateAndBalance DEFAULT_CONFIG ("   ".data) = ("   ".data, []) ∧
        ∀ parse, DEFAULT_CONFIG.returnParsedJson = false →
          validateStreamingJson parse DEFAULT_CONFIG ("   ".data) =
            ChunkResult.text ("   ".data)) :=
  ⟨by decide,
    (balance_trivial_inputs DEFAULT_CONFIG ("   ".data)).2 (by decide)⟩

/-- C7: when decoded values are requested and the decode of the freshly
balanced text fails, `appendChunk` does not raise: it returns the new
session state unchanged by the decode stage together with the balanced text
as the fallback result. -/
theorem decode_failure_fallback (parse : List Char → Option JsonValue)
    (p : StreamingJsonParser) (chunk : List Char)
    (h1 : p.config.returnParsedJson = true)
    (h2 : parse (appendBalance p chunk).lastBalancedString = none) :
    appendChunk parse p chunk =
      (appendBalance p chunk,
        ChunkResult.text (appendBalance p chunk).lastBalancedString) := by
  have hc : (appendBalance p chunk).config.returnParsedJson = true := by
    rw [appendBalance_config]; exact h1
  unfold appendChunk
  simp [hc, h2]

/-- Witness for the decode-failure fallback with an always-failing decoder
on the chunk `{`. -/
theorem decode_failure_fallback_witness :
    (c7Parser.config.returnParsedJson = true ∧
        c7Parse (appendBalance c7Parser ['{']).lastBalancedString = none) ∧
      appendChunk c7Parse c7Parser ['{'] =
        (appendBalance c7Parser ['{'],
          ChunkResult.text (appendBalance c7Parser ['{']).lastBalancedString) :=
  ⟨⟨rfl, rfl⟩, decode_failure_fallback c7Parse c7Parser ['{'] rfl rfl⟩

/-- C8: a string whose scan ends with an empty bracket stack and outside any
string (already structurally valid JSON) is returned unchanged by the
one-shot balance, hence balancing is idempotent on it. -/
theorem balance_idempotent (s : List Char)
    (h1 : (bracketScan s).stack = [])
    (h2 : (bracketScan s).inString = false) :
    balanceOnce DEFAULT_CONFIG s = s ∧
      balanceOnce DEFAULT_CONFIG (balanceOnce DEFAULT_CONFIG s) =
        balanceOnce DEFAULT_CONFIG s ∧
      ∀ parse, validateStreamingJson parse DEFAULT_CONFIG s =
        ChunkResult.text s := by
  have hb : balanceOnce DEFAULT_CONFIG s = s := by
    unfold balanceOnce
    rw [validateAndBalance_stable s h1 h2]
  refine ⟨hb, ?_, fun parse => ?_⟩
  · rw [hb]
    exact hb
  · rw [validateStreamingJson_text parse DEFAULT_CONFIG s rfl, hb]

/-- Witness for idempotence at the already-valid object `{"a": 1}`. -/
theorem balance_idempotent_witness :
    ((bracketScan c8WitInput).stack = [] ∧
        (bracketScan c8WitInput).inString = false) ∧
      (balanceOnce DEFAULT_CONFIG c8WitInput = c8WitInput ∧
        balanceOnce DEFAULT_CONFIG (balanceOnce DEFAULT_CONFIG c8WitInput) =
          balanceOnce DEFAULT_CONFIG c8WitInput ∧
        ∀ parse, validateStreamingJson parse DEFAULT_CONFIG c8WitInput =
          ChunkResult.text c8WitInput) :=
  ⟨⟨by decide, by decide⟩,
    balance_idempotent c8WitInput (by decide) (by decide)⟩

/-- C9: the balanced output stored by a one-shot append always extends the
input: for every configuration and input there is a (possibly empty)
appended suffix such that output = input ++ suffix; no character of the
input is deleted, reordered, or modified. -/
theorem output_extends_input (cfg : JsonParserConfig)
    (parse : List Char → Option JsonValue) (s : List Char) :
    ∃ t, (appendChunk parse (mkParser cfg) s).1.lastBalancedString = s ++ t ∧
      (validateAndBalance cfg s).1 = s ++ t := by
  obtain ⟨t, ht⟩ := validateAndBalance_fst_append cfg s
  refine ⟨t, ?_, ht⟩
  have e1 := (appendChunk_state parse (mkParser cfg) s).1
  rw [e1, appendBalance_fresh]
  exact ht

/-- C10: when decoded values are requested and the decode fails, the stored
`lastParsedData` is left unchanged, so `getCurrentData` still returns the
value from the last successful decode (or the initial null). -/
theorem decode_failure_frame (parse : List Char → Option JsonValue)
    (p : StreamingJsonParser) (chunk : List Char)
    (h1 : p.config.returnParsedJson = true)
    (h2 : parse (appendBalance p chunk).lastBalancedString = none) :
    (appendChunk parse p chunk).1.lastParsedData = p.lastParsedData ∧
      getCurrentData (appendChunk parse p chunk).1 =
        Sum.inl p.lastParsedData := by
  have hc : (appendBalance p chunk).config.returnParsedJson = true := by
    rw [appendBalance_config]; exact h1
  have hstate : (appendChunk parse p chunk).1 = appendBalance p chunk := by
    unfold appendChunk
    simp [hc, h2]
  constructor
  · rw [hstate, appendBalance_lastParsed]
  · rw [hstate]
    simp [getCurrentData, appendBalance_config, h1, appendBalance_lastParsed]

/-- Witness for the decode-failure frame condition: a session holding a
previously decoded `null` keeps it when the next decode fails. -/
theorem decode_failure_frame_witness :
    (c10Parser.config.returnParsedJson = true ∧
        c10Parse (appendBalance c10Parser ['{']).lastBalancedString = none) ∧
      ((appendChunk c10Parse c10Parser ['{']).1.lastParsedData =
          c10Parser.lastParsedData ∧
        getCurrentData (appendChunk c10Parse c10Parser ['{']).1 =
          Sum.inl c10Parser.lastParsedData) :=
  ⟨⟨rfl, rfl⟩, decode_failure_frame c10Parse c10Parser ['{'] rfl rfl⟩

end LlmJson
